import Mathlib

/-!
Verification of the prompt-assembly pipeline of `src/data/dataloader.py`.

Strings are modelled as `List Char` (`Str`).  Python's `str.split(sep)` and
`sep.join(parts)` for a fixed non-empty separator are modelled by `pySplit`
and `pyJoin`.  The numpy sampler `np.random.default_rng(seed).choice` is an
external collaborator: the definitions below are parametrised over an
arbitrary deterministic `choice` function, and `npChoice` is a concrete
deterministic stand-in used for evaluation; `choiceE` adds the documented
`ValueError` raised when the requested sample size exceeds the population.
-/

abbrev Str := List Char

def emptyStr : Str := []

def nlStr : Str := "\n".toList

/-- Python `sep.join(parts)`. -/
def pyJoin (sep : Str) : List Str → Str
  | [] => []
  | [x] => x
  | x :: y :: zs => x ++ sep ++ pyJoin sep (y :: zs)

/-- Python `s.split(sep)` for non-empty `sep`, via fuel-bounded recursion
(the fuel `l.length + 1` always suffices). -/
def pySplitF (sep : Str) : Nat → Str → List Str
  | _, [] => [[]]
  | 0, l => [l]
  | fuel + 1, c :: rest =>
    if sep ≠ [] ∧ sep.isPrefixOf (c :: rest) then
      [] :: pySplitF sep fuel ((c :: rest).drop sep.length)
    else
      match pySplitF sep fuel rest with
      | [] => [[c]]
      | p :: ps => (c :: p) :: ps

def pySplit (sep l : Str) : List Str := pySplitF sep (l.length + 1) l

/-- Boolean substring test: `occursInB s b` scans `b` for an occurrence of `s`. -/
def occursInB (s : Str) : Str → Bool
  | [] => s.isEmpty
  | c :: rest => s.isPrefixOf (c :: rest) || occursInB s rest

/-- Substring occurrence: `s` occurs contiguously inside `b`. -/
abbrev occursIn (s b : Str) : Prop := occursInB s b = true

def exceptOk {ε α : Type} : Except ε α → Bool
  | .ok _ => true
  | .error _ => false

/-!
Data model.  `RTExample` is one rotten-tomatoes record ({text, label});
`DataLoader` captures the per-dataset state a loader object holds after
`__init__`: the class constant `PROMPT_PREFIX`, the instruction `command`
used by `incontext_prompt_iterative`, the separator its `split` uses, the
mapped columns `train["prompt"]` and `test["eval_prompt"]`, and the column
returned by `load_test_reference`.
-/

inductive Val
  | s (v : Str)
  | i (v : Int)
deriving DecidableEq

inductive PyError
  | valueError
  | indexError
  | attributeError
  | keyError (key : String)
  | keyErrorVal (key : Val)
  | nameError (name : String)
deriving DecidableEq

structure Turn where
  role : Str
  content : Str
deriving DecidableEq

structure RTExample where
  text : Str
  label : Int
deriving DecidableEq

structure DataLoader where
  promptPrefix : Str
  command : Str
  sep : Str
  trainPrompt : List Str
  evalPrompt : List Str
  testReference : List Str
deriving DecidableEq

def rtHeader : Str := "Please read the following pairs of movie reviews and sentiment:\n".toList

def reviewLit : Str := "review: ".toList

def rtSep : Str := "\nsentiment: ".toList

def posStr : Str := "positive".toList

def negStr : Str := "negative".toList

def rtInstr : Str := "Please perform a Sentiment Classification task. Given the following movie review, assign a sentiment label from [\x27negative\x27, \x27positive\x27]. Return only the sentiment label without any other text.\n".toList

/-- The `command` built inside `RottenTomatoesDataLoader.incontext_prompt_iterative`:
in the source only the first string literal is assigned to `command`; the two
following string literals stand on lines of their own and are bare expression
statements, so they are not part of the value. -/
def rtCommand : Str := "Please perform a Sentiment Classification task. ".toList

def userStr : Str := "user".toList

def assistantStr : Str := "assistant".toList

/-- Model of `RottenTomatoesDataLoader._label_to_sentiment`. -/
def label_to_sentiment (ex : RTExample) : Str :=
  if ex.label = 1 then posStr else negStr

/-- Model of `RottenTomatoesDataLoader._prompt`, applied to a record that already has
its `sentiment` column. -/
def rt_prompt (ex : RTExample) : Str :=
  reviewLit ++ ex.text ++ rtSep ++ label_to_sentiment ex

/-- Model of `RottenTomatoesDataLoader._eval_prompt`. -/
def rt_eval_prompt (ex : RTExample) : Str := rtInstr ++ ex.text

/-- Model of `RottenTomatoesDataLoader.__init__` over given train/test pools: maps the
label to a sentiment, the training rows to `prompt` and the test rows to
`eval_prompt`; `load_test_reference` later returns `test["sentiment"]`. -/
def RottenTomatoesDataLoader (train test : List RTExample) : DataLoader where
  promptPrefix := rtHeader
  command := rtCommand
  sep := rtSep
  trainPrompt := train.map rt_prompt
  evalPrompt := test.map rt_eval_prompt
  testReference := test.map label_to_sentiment

/-- Deterministic stand-in for the external sampler
`np.random.default_rng(seed).choice(n, k, replace=False)`: any fixed function
of `(n, k, seed)` models its documented determinism; the pipeline under
verification is parametrised over an arbitrary such function and this one is
used to evaluate witnesses. -/
def npChoice (n k seed : Nat) : List Nat :=
  ((List.range n).drop (seed % (n + 1)) ++ (List.range n).take (seed % (n + 1))).take k

section Pipeline

variable (choice : Nat → Nat → Nat → List Nat)

/-- Model of `rng.choice(n, k, replace=False)` together with the `ValueError` numpy
raises when `k > n` (sampling without replacement is infeasible). -/
def choiceE (n k seed : Nat) : Except PyError (List Nat) :=
  if n < k then .error .valueError else .ok (choice n k seed)

/-- Model of `incontext_prompt` (identical in every adapter up to its constants):
`""` for zero examples, otherwise `PROMPT_PREFIX + "\n".join(selected) + "\n"`. -/
def incontext_prompt (d : DataLoader) (num_examples seed : Nat) : Except PyError Str :=
  if num_examples = 0 then .ok emptyStr
  else
    match choiceE choice d.trainPrompt.length num_examples seed with
    | .error e => .error e
    | .ok idxs =>
      .ok (d.promptPrefix ++ pyJoin nlStr (idxs.map fun j => d.trainPrompt.getD j emptyStr) ++ nlStr)

/-- One iteration of the loop in `incontext_prompt_iterative`:
`parts = ex.split(sep)`, then a user turn `command + parts[0]` and an
assistant turn `parts[1]` (an `IndexError` if the separator is absent). -/
def turnsOfExample (command sep ex : Str) : Except PyError (List Turn) :=
  match (pySplit sep ex)[1]? with
  | none => .error .indexError
  | some p1 => .ok [⟨userStr, command ++ (pySplit sep ex).headD emptyStr⟩, ⟨assistantStr, p1⟩]

/-- The whole loop of `incontext_prompt_iterative` over the selected examples. -/
def buildTurns (command sep : Str) : List Str → Except PyError (List Turn)
  | [] => .ok []
  | ex :: rest =>
    match turnsOfExample command sep ex with
    | .error e => .error e
    | .ok t =>
      match buildTurns command sep rest with
      | .error e => .error e
      | .ok ts => .ok (t ++ ts)

/-- Model of `incontext_prompt_iterative` (identical in every adapter up to its
constants): `[]` for zero examples, otherwise user/assistant turn pairs for
the same selected examples as `incontext_prompt`. -/
def incontext_prompt_iterative (d : DataLoader) (num_examples seed : Nat) :
    Except PyError (List Turn) :=
  if num_examples = 0 then .ok []
  else
    match choiceE choice d.trainPrompt.length num_examples seed with
    | .error e => .error e
    | .ok idxs => buildTurns d.command d.sep (idxs.map fun j => d.trainPrompt.getD j emptyStr)

end Pipeline

structure PromptLoader where
  incontext_set : DataLoader
  eval_set : DataLoader
deriving DecidableEq

section Loading

variable (choice : Nat → Nat → Nat → List Nat)

/-- The comprehension in `PromptLoader.load_prompt`:
`incontext_prompt(num_examples, seed=idx) + eval_prompt` for
`idx, eval_prompt in enumerate(eval_set.eval_prompt())`, starting at `idx`. -/
def buildPrompts (d : DataLoader) (k : Nat) : Nat → List Str → Except PyError (List Str)
  | _, [] => .ok []
  | idx, ep :: rest =>
    match incontext_prompt choice d k idx with
    | .error e => .error e
    | .ok ic =>
      match buildPrompts d k (idx + 1) rest with
      | .error e => .error e
      | .ok ps => .ok ((ic ++ ep) :: ps)

/-- Model of `PromptLoader.load_prompt`. -/
def load_prompt (pl : PromptLoader) (num_examples : Nat) : Except PyError (List Str) :=
  buildPrompts choice pl.incontext_set num_examples 0 pl.eval_set.evalPrompt

/-- The comprehension in `PromptLoader.load_prompt_iterative`:
`incontext_prompt_iterative(num_examples, seed=idx) + [{role: user, content: eval_prompt}]`. -/
def buildPromptsIter (d : DataLoader) (k : Nat) : Nat → List Str → Except PyError (List (List Turn))
  | _, [] => .ok []
  | idx, ep :: rest =>
    match incontext_prompt_iterative choice d k idx with
    | .error e => .error e
    | .ok turns =>
      match buildPromptsIter d k (idx + 1) rest with
      | .error e => .error e
      | .ok ps => .ok ((turns ++ [⟨userStr, ep⟩]) :: ps)

/-- Model of `PromptLoader.load_prompt_iterative`. -/
def load_prompt_iterative (pl : PromptLoader) (num_examples : Nat) :
    Except PyError (List (List Turn)) :=
  buildPromptsIter choice pl.incontext_set num_examples 0 pl.eval_set.evalPrompt

end Loading

/-- Model of `PromptLoader.load_testdata`: `eval_set.load_test_reference()`. -/
def load_testdata (pl : PromptLoader) : List Str := pl.eval_set.testReference

/-!
`PromptLoader.__init__` and `load_data`.  The per-dataset constructors load
external datasets, so they are abstracted as an arbitrary `mk` function from
the dataset name to the constructed loader.  `__init__` has no `else`
branches: an unsupported `eval` name leaves `self.eval_set` unassigned
(`none` here) and the constructor still returns normally, except when
`incontext == eval`, where line `self.incontext_set = self.eval_set` reads
the unassigned attribute and raises an `AttributeError`.
-/

def gigawordName : String := "gigaword"

def dailymailName : String := "dailymail"

def rottenName : String := "rotten_tomatoes"

def wikicatName : String := "wikicat"

def tweetqaName : String := "tweetqa"

structure PromptLoaderOpt where
  incontext_set : Option DataLoader
  eval_set : Option DataLoader
deriving DecidableEq

/-- The `elif` chain assigning `self.incontext_set` when `incontext != eval`. -/
def icOptFor (mk : String → DataLoader) (incontext : String) : Option DataLoader :=
  if incontext = gigawordName then some (mk gigawordName)
  else if incontext = dailymailName then some (mk dailymailName)
  else if incontext = wikicatName then some (mk wikicatName)
  else if incontext = rottenName then some (mk rottenName)
  else if incontext = tweetqaName then some (mk tweetqaName)
  else none

/-- The `if`/`elif` chain assigning `self.eval_set`. -/
def evalOptFor (mk : String → DataLoader) (eval : String) : Option DataLoader :=
  if eval = gigawordName then some (mk gigawordName)
  else if eval = dailymailName then some (mk dailymailName)
  else if eval = rottenName then some (mk rottenName)
  else none

/-- Model of `PromptLoader.__init__(incontext, eval)`. -/
def promptLoaderInit (mk : String → DataLoader) (incontext eval : String) :
    Except PyError PromptLoaderOpt :=
  if incontext = eval then
    match evalOptFor mk eval with
    | none => .error .attributeError
    | some d => .ok ⟨some d, some d⟩
  else .ok ⟨icOptFor mk incontext, evalOptFor mk eval⟩

/-- The name whose lookup fails inside `load_data`. -/
def loadGigawordMissing : String := "_load_gigaword"

/-- Model of `load_data(data_name, lim)`: the lookup table it builds refers to
`_load_gigaword`, a name defined nowhere in the module, so evaluating the
dict literal raises a `NameError` before the key is ever looked up,
whatever `data_name` is. -/
def load_data (data_name : String) : Except PyError Unit :=
  .error (.nameError loadGigawordMissing)

/-!
Record transforms.  A Python dict (insertion-ordered, unique keys) is an
association list.  Each transform is modelled as
`argument ↦ (returned record, state of the argument after the call)`, so
that in-place mutation of the argument is observable.
-/

abbrev Rec := List (String × Val)

def dictGet (ex : Rec) (key : String) : Option Val :=
  (ex.find? fun p => p.1 == key).map fun p => p.2

/-- Assignment `d[key] = v` on an insertion-ordered dict: updates the entry in place if
the key is present, otherwise appends it. -/
def dictSet (ex : Rec) (key : String) (v : Val) : Rec :=
  if ex.any fun p => p.1 == key then
    ex.map fun p => if p.1 == key then (key, v) else p
  else ex ++ [(key, v)]

/-- Python `d.pop(key)`: the value and the dict with the entry removed. -/
def dictPop (ex : Rec) (key : String) : Option (Val × Rec) :=
  match dictGet ex key with
  | none => none
  | some v => some (v, ex.eraseP fun p => p.1 == key)

/-- Model of `change_key(ex, old_key, new_key)`: copies the record
(`ex = ex.copy()`), pops `old_key` from the copy and stores its value under
`new_key`; the result is the pair (returned record, argument after the
call), and the argument is left untouched. -/
def change_key (ex : Rec) (old_key new_key : String) : Except PyError (Rec × Rec) :=
  match dictPop ex old_key with
  | none => .error (.keyError old_key)
  | some (v, rest) => .ok (dictSet rest new_key v, ex)

/-- Model of `content_map(ex, target_key, mapping)`: no copy is taken —
`ex[target_key] = mapping[ex[target_key]]` writes into the argument itself
and the same (mutated) record is returned, so both components of the result
are that mutated record. -/
def content_map (ex : Rec) (target_key : String) (mapping : List (Val × Val)) :
    Except PyError (Rec × Rec) :=
  match dictGet ex target_key with
  | none => .error (.keyError target_key)
  | some v =>
    match (mapping.find? fun p => p.1 == v).map fun p => p.2 with
    | none => .error (.keyErrorVal v)
    | some w =>
      let r := dictSet ex target_key w
      .ok (r, r)

/-!
Helper descriptions of the pipeline outputs, used in theorem statements:
the fragments selected for a given seed, the flat in-context block and the
turn list for a given seed.
-/

section Described

variable (choice : Nat → Nat → Nat → List Nat)

/-- The training fragments selected by the sampler for a given seed. -/
def fragsOf (d : DataLoader) (k seed : Nat) : List Str :=
  (choice d.trainPrompt.length k seed).map fun j => d.trainPrompt.getD j emptyStr

/-- The string `incontext_prompt` returns when the sampler does not fail. -/
def icString (d : DataLoader) (k seed : Nat) : Str :=
  if k = 0 then emptyStr
  else d.promptPrefix ++ pyJoin nlStr (fragsOf choice d k seed) ++ nlStr

/-- The user/assistant turn pairs for a list of fragments: per fragment one
user turn `command + parts[0]` and one assistant turn `parts[1]`. -/
def pairTurns (command sep : Str) : List Str → List Turn
  | [] => []
  | ex :: rest =>
    ⟨userStr, command ++ (pySplit sep ex).headD emptyStr⟩ ::
      ⟨assistantStr, (pySplit sep ex).getD 1 emptyStr⟩ :: pairTurns command sep rest

/-- The turn list `incontext_prompt_iterative` returns when it succeeds. -/
def icTurns (d : DataLoader) (k seed : Nat) : List Turn :=
  if k = 0 then [] else pairTurns d.command d.sep (fragsOf choice d k seed)

end Described

/-!
Concrete instances used by witnesses and counterexamples.
-/

def aStr : Str := "A".toList

def bStr : Str := "B".toList

def exA : RTExample := ⟨aStr, 1⟩

def exB : RTExample := ⟨bStr, 0⟩

def dEx : DataLoader := RottenTomatoesDataLoader [exA] [exB]

def plEx : PromptLoader := ⟨dEx, dEx⟩

def fragA : Str := rt_prompt exA

def evalQB : Str := rt_eval_prompt exB

/-- A training record whose own text contains the separator token. -/
def advText : Str := "x\nsentiment: y".toList

def exAdv : RTExample := ⟨advText, 1⟩

def dAdv : DataLoader := RottenTomatoesDataLoader [exAdv] [exB]

def plAdv : PromptLoader := ⟨dAdv, dAdv⟩

def advFrag : Str := rt_prompt exAdv

def reviewXStr : Str := "review: x".toList

def yStr : Str := "y".toList

def mkStub : String → DataLoader := fun _ => RottenTomatoesDataLoader [] []

def sst2Name : String := "sst2"

def sentimentKey : String := "Sentiment"

def labelKey : String := "label"

def textKey : String := "text"

def reviewKey : String := "Review"

def c9recA : Rec := [(textKey, Val.s aStr), (labelKey, Val.i 1)]

def c9recB : Rec := [(sentimentKey, Val.i 0)]

def c9map : List (Val × Val) := [(Val.i 0, Val.s negStr), (Val.i 1, Val.s posStr)]

def psEx : List Str := [rtHeader ++ fragA ++ nlStr ++ evalQB]

def turnsEx : List Turn :=
  [⟨userStr, rtCommand ++ reviewLit ++ aStr⟩, ⟨assistantStr, posStr⟩, ⟨userStr, evalQB⟩]

/-!
String lemmas: split/join reconstruction and substring occurrence.
-/

theorem isPrefixOf_eq_true_iff : ∀ (a b : Str), a.isPrefixOf b = true ↔ ∃ t, b = a ++ t := by
  intro a
  induction a with
  | nil => intro b; simp [List.isPrefixOf]
  | cons c cs ih =>
    intro b
    cases b with
    | nil => simp [List.isPrefixOf]
    | cons d ds =>
      simp only [List.isPrefixOf, Bool.and_eq_true, beq_iff_eq, ih ds]
      constructor
      · rintro ⟨rfl, t, rfl⟩; exact ⟨t, rfl⟩
      · rintro ⟨t, h⟩
        cases h
        exact ⟨rfl, t, rfl⟩

theorem pySplitF_ne_nil (sep : Str) (fuel : Nat) (l : Str) : pySplitF sep fuel l ≠ [] := by
  match fuel, l with
  | _, [] => simp [pySplitF]
  | 0, c :: rest => simp [pySplitF]
  | fuel + 1, c :: rest =>
    simp only [pySplitF]
    split
    · simp
    · split <;> simp

theorem pyJoin_cons_of_ne_nil (sep x : Str) (xs : List Str) (h : xs ≠ []) :
    pyJoin sep (x :: xs) = x ++ sep ++ pyJoin sep xs := by
  cases xs with
  | nil => exact absurd rfl h
  | cons y ys => rfl

/-- Joining the parts of a split with the separator recovers the string. -/
theorem pyJoin_pySplitF (sep : Str) (hsep : sep ≠ []) :
    ∀ fuel l, l.length < fuel → pyJoin sep (pySplitF sep fuel l) = l := by
  intro fuel
  induction fuel with
  | zero => intro l h; omega
  | succ fuel ih =>
    intro l h
    cases l with
    | nil => simp [pySplitF, pyJoin]
    | cons c rest =>
      simp only [pySplitF]
      split
      · rename_i hcond
        obtain ⟨t, ht⟩ := (isPrefixOf_eq_true_iff sep (c :: rest)).mp hcond.2
        have hlen : t.length < fuel := by
          have := congrArg List.length ht
          simp [List.length_append] at this
          have hs1 : 1 ≤ sep.length := by
            cases sep with
            | nil => exact absurd rfl hsep
            | cons _ _ => simp
          simp only [List.length_cons] at h
          omega
        have hdrop : (c :: rest).drop sep.length = t := by
          rw [ht, List.drop_left]
        rw [hdrop]
        rw [pyJoin_cons_of_ne_nil sep _ _ (pySplitF_ne_nil sep fuel t)]
        rw [ih t hlen]
        simpa using ht.symm
      · have hrest : rest.length < fuel := by
          simp only [List.length_cons] at h; omega
        have hne := pySplitF_ne_nil sep fuel rest
        cases hps : pySplitF sep fuel rest with
        | nil => exact absurd hps hne
        | cons p ps =>
          have hjoin : pyJoin sep (p :: ps) = rest := by
            rw [← hps, ih rest hrest]
          cases ps with
          | nil =>
            simp only [pyJoin] at hjoin ⊢
            rw [hjoin]
          | cons q qs =>
            simp only [pyJoin] at hjoin ⊢
            simp only [List.cons_append]
            rw [hjoin]

theorem pyJoin_pySplit (sep l : Str) (hsep : sep ≠ []) :
    pyJoin sep (pySplit sep l) = l :=
  pyJoin_pySplitF sep hsep (l.length + 1) l (by omega)

theorem occursIn_iff (s : Str) : ∀ b, occursIn s b ↔ ∃ a c, b = a ++ s ++ c := by
  intro b
  induction b with
  | nil =>
    simp only [occursIn, occursInB, List.isEmpty_iff]
    constructor
    · rintro rfl; exact ⟨[], [], rfl⟩
    · rintro ⟨a, c, h⟩
      rcases List.append_eq_nil.mp h.symm with ⟨h1, h2⟩
      exact (List.append_eq_nil.mp h1).2
  | cons d ds ih =>
    simp only [occursIn, occursInB, Bool.or_eq_true] at *
    constructor
    · rintro (hp | ho)
      · obtain ⟨t, ht⟩ := (isPrefixOf_eq_true_iff s (d :: ds)).mp hp
        exact ⟨[], t, by simpa using ht⟩
      · obtain ⟨a, c, hac⟩ := ih.mp ho
        exact ⟨d :: a, c, by simp [hac]⟩
    · rintro ⟨a, c, hac⟩
      cases a with
      | nil =>
        left
        exact (isPrefixOf_eq_true_iff s (d :: ds)).mpr ⟨c, by simpa using hac⟩
      | cons e es =>
        right
        refine ih.mpr ⟨es, c, ?_⟩
        simpa using congrArg List.tail hac

theorem occursIn_appendL (s pre b : Str) (h : occursIn s b) : occursIn s (pre ++ b) := by
  rw [occursIn_iff] at h ⊢
  obtain ⟨a, c, rfl⟩ := h
  exact ⟨pre ++ a, c, by simp⟩

theorem occursIn_appendR (s b post : Str) (h : occursIn s b) : occursIn s (b ++ post) := by
  rw [occursIn_iff] at h ⊢
  obtain ⟨a, c, rfl⟩ := h
  exact ⟨a, c ++ post, by simp⟩

theorem occursIn_of_append_left (c s big : Str) (h : occursIn (c ++ s) big) : occursIn s big := by
  rw [occursIn_iff] at h ⊢
  obtain ⟨a, b, rfl⟩ := h
  exact ⟨a ++ c, b, by simp⟩

theorem occursIn_mem_pyJoin (sep x : Str) : ∀ xs, x ∈ xs → occursIn x (pyJoin sep xs) := by
  intro xs
  induction xs with
  | nil => intro h; simp at h
  | cons y ys ih =>
    intro hmem
    rcases List.mem_cons.mp hmem with rfl | hmem
    · cases ys with
      | nil =>
        rw [occursIn_iff]
        exact ⟨[], [], by simp [pyJoin]⟩
      | cons z zs =>
        rw [pyJoin_cons_of_ne_nil _ _ _ (by simp)]
        rw [occursIn_iff]
        exact ⟨[], sep ++ pyJoin sep (z :: zs), by simp⟩
    · cases ys with
      | nil => simp at hmem
      | cons z zs =>
        rw [pyJoin_cons_of_ne_nil _ _ _ (by simp)]
        exact occursIn_appendL x (y ++ sep) _ (ih hmem)

theorem pyJoin_pair_occurs (sep x y : Str) :
    ∀ l1 l2, occursIn (x ++ sep ++ y) (pyJoin sep (l1 ++ x :: y :: l2)) := by
  intro l1
  induction l1 with
  | nil =>
    intro l2
    simp only [List.nil_append]
    rw [pyJoin_cons_of_ne_nil _ _ _ (by simp)]
    cases l2 with
    | nil =>
      rw [occursIn_iff]
      exact ⟨[], [], by simp [pyJoin]⟩
    | cons z zs =>
      rw [pyJoin_cons_of_ne_nil _ _ _ (by simp)]
      rw [occursIn_iff]
      refine ⟨[], sep ++ pyJoin sep (z :: zs), by simp⟩
  | cons a l1 ih =>
    intro l2
    rw [List.cons_append, pyJoin_cons_of_ne_nil _ _ _ (by simp)]
    exact occursIn_appendL _ (a ++ sep) _ (ih l2)

/-!
Pipeline lemmas: characterisation of `incontext_prompt`,
`incontext_prompt_iterative` and the two load loops.
-/

theorem getD_eq_of_getElem? {α : Type} (l : List α) (i : Nat) (d v : α)
    (h : l[i]? = some v) : l.getD i d = v := by
  rw [List.getD_eq_getElem?_getD, h]
  rfl

section PipelineLemmas

variable (choice : Nat → Nat → Nat → List Nat)

theorem icp_inv (d : DataLoader) (k seed : Nat) (s : Str)
    (h : incontext_prompt choice d k seed = .ok s) : s = icString choice d k seed := by
  by_cases hk : k = 0
  · subst hk
    simp only [incontext_prompt, if_pos rfl] at h
    simp only [if_true, Except.ok.injEq] at h
    simp [icString, ← h]
  · simp only [incontext_prompt, if_neg hk, choiceE] at h
    by_cases hn : d.trainPrompt.length < k
    · simp [if_pos hn] at h
    · simp only [if_neg hn, Except.ok.injEq] at h
      simp [icString, if_neg hk, fragsOf, ← h]

theorem icp_ok (d : DataLoader) (k seed : Nat) (h : k = 0 ∨ k ≤ d.trainPrompt.length) :
    incontext_prompt choice d k seed = .ok (icString choice d k seed) := by
  by_cases hk : k = 0
  · subst hk
    simp [incontext_prompt, icString, emptyStr]
  · have hn : ¬ d.trainPrompt.length < k := by
      rcases h with h | h
      · exact absurd h hk
      · omega
    simp [incontext_prompt, if_neg hk, choiceE, if_neg hn, icString, fragsOf]

theorem icp_err (d : DataLoader) (k seed : Nat) (h : d.trainPrompt.length < k) :
    incontext_prompt choice d k seed = .error .valueError := by
  have hk : ¬ k = 0 := by omega
  simp [incontext_prompt, if_neg hk, choiceE, if_pos h]

theorem turnsOfExample_ok_inv (command sep ex : Str) (t : List Turn)
    (h : turnsOfExample command sep ex = .ok t) :
    t = [⟨userStr, command ++ (pySplit sep ex).headD emptyStr⟩,
         ⟨assistantStr, (pySplit sep ex).getD 1 emptyStr⟩] := by
  unfold turnsOfExample at h
  cases h1 : (pySplit sep ex)[1]? with
  | none => rw [h1] at h; exact absurd h (by simp)
  | some p1 =>
    rw [h1] at h
    simp only [Except.ok.injEq] at h
    rw [← h, getD_eq_of_getElem? _ 1 emptyStr p1 h1]

theorem turnsOfExample_ok (command sep ex : Str) (h : 2 ≤ (pySplit sep ex).length) :
    turnsOfExample command sep ex =
      .ok [⟨userStr, command ++ (pySplit sep ex).headD emptyStr⟩,
           ⟨assistantStr, (pySplit sep ex).getD 1 emptyStr⟩] := by
  have h1 : ∃ p1, (pySplit sep ex)[1]? = some p1 := by
    cases hps : pySplit sep ex with
    | nil => rw [hps] at h; simp at h
    | cons p ps =>
      cases ps with
      | nil => rw [hps] at h; simp at h
      | cons q qs => exact ⟨q, by simp⟩
  obtain ⟨p1, h1⟩ := h1
  unfold turnsOfExample
  rw [h1]
  rw [getD_eq_of_getElem? _ 1 emptyStr p1 h1]

theorem buildTurns_ok_inv (command sep : Str) :
    ∀ exs u, buildTurns command sep exs = .ok u → u = pairTurns command sep exs := by
  intro exs
  induction exs with
  | nil => intro u h; simpa [buildTurns, pairTurns] using h.symm
  | cons ex rest ih =>
    intro u h
    simp only [buildTurns] at h
    cases h1 : turnsOfExample command sep ex with
    | error e => rw [h1] at h; exact absurd h (by simp)
    | ok t =>
      rw [h1] at h
      cases h2 : buildTurns command sep rest with
      | error e => rw [h2] at h; exact absurd h (by simp)
      | ok ts =>
        rw [h2] at h
        simp only [Except.ok.injEq] at h
        rw [← h, ih ts h2, turnsOfExample_ok_inv command sep ex t h1]
        rfl

theorem buildTurns_ok (command sep : Str) :
    ∀ exs, (∀ ex ∈ exs, 2 ≤ (pySplit sep ex).length) →
      buildTurns command sep exs = .ok (pairTurns command sep exs) := by
  intro exs
  induction exs with
  | nil => intro h; rfl
  | cons ex rest ih =>
    intro h
    simp only [buildTurns]
    rw [turnsOfExample_ok command sep ex (h ex (by simp))]
    rw [ih fun e he => h e (by simp [he])]
    rfl

theorem icpi_inv (d : DataLoader) (k seed : Nat) (u : List Turn)
    (h : incontext_prompt_iterative choice d k seed = .ok u) :
    u = icTurns choice d k seed := by
  by_cases hk : k = 0
  · subst hk
    simp only [incontext_prompt_iterative, if_pos rfl] at h
    simp only [if_true, Except.ok.injEq] at h
    simp [icTurns, ← h]
  · simp only [incontext_prompt_iterative, if_neg hk, choiceE] at h
    by_cases hn : d.trainPrompt.length < k
    · simp [if_pos hn] at h
    · simp only [if_neg hn] at h
      rw [icTurns, if_neg hk]
      exact buildTurns_ok_inv d.command d.sep _ u h

theorem icpi_ok (d : DataLoader) (k seed : Nat)
    (hn : k = 0 ∨ k ≤ d.trainPrompt.length)
    (hsplit : ∀ ex ∈ fragsOf choice d k seed, 2 ≤ (pySplit d.sep ex).length) :
    incontext_prompt_iterative choice d k seed = .ok (icTurns choice d k seed) := by
  by_cases hk : k = 0
  · subst hk
    simp [incontext_prompt_iterative, icTurns]
  · have hn' : ¬ d.trainPrompt.length < k := by
      rcases hn with hn | hn
      · exact absurd hn hk
      · omega
    simp only [incontext_prompt_iterative, if_neg hk, choiceE, if_neg hn']
    rw [icTurns, if_neg hk]
    exact buildTurns_ok d.command d.sep _ hsplit

theorem icpi_err (d : DataLoader) (k seed : Nat) (h : d.trainPrompt.length < k) :
    incontext_prompt_iterative choice d k seed = .error .valueError := by
  have hk : ¬ k = 0 := by omega
  simp [incontext_prompt_iterative, if_neg hk, choiceE, if_pos h]

theorem bp_length (d : DataLoader) (k : Nat) :
    ∀ eps start ps, buildPrompts choice d k start eps = .ok ps → ps.length = eps.length := by
  intro eps
  induction eps with
  | nil =>
    intro start ps h
    simp only [buildPrompts, Except.ok.injEq] at h
    rw [← h]
  | cons ep rest ih =>
    intro start ps h
    simp only [buildPrompts] at h
    cases h1 : incontext_prompt choice d k start with
    | error e => rw [h1] at h; exact absurd h (by simp)
    | ok ic =>
      rw [h1] at h
      cases h2 : buildPrompts choice d k (start + 1) rest with
      | error e => rw [h2] at h; exact absurd h (by simp)
      | ok ps' =>
        rw [h2] at h
        simp only [Except.ok.injEq] at h
        rw [← h]
        simp [ih (start + 1) ps' h2]

theorem bp_get (d : DataLoader) (k : Nat) :
    ∀ eps start ps i ep, buildPrompts choice d k start eps = .ok ps →
      eps[i]? = some ep →
      ∃ s, incontext_prompt choice d k (start + i) = .ok s ∧ ps[i]? = some (s ++ ep) := by
  intro eps
  induction eps with
  | nil => intro start ps i ep h hep; simp at hep
  | cons ep0 rest ih =>
    intro start ps i ep h hep
    simp only [buildPrompts] at h
    cases h1 : incontext_prompt choice d k start with
    | error e => rw [h1] at h; exact absurd h (by simp)
    | ok ic =>
      rw [h1] at h
      cases h2 : buildPrompts choice d k (start + 1) rest with
      | error e => rw [h2] at h; exact absurd h (by simp)
      | ok ps' =>
        rw [h2] at h
        simp only [Except.ok.injEq] at h
        cases i with
        | zero =>
          simp only [List.getElem?_cons_zero, Option.some.injEq] at hep
          refine ⟨ic, by simpa using h1, ?_⟩
          rw [← h, hep]
          simp
        | succ i =>
          simp only [List.getElem?_cons_succ] at hep
          obtain ⟨s, hs, hps⟩ := ih (start + 1) ps' i ep h2 hep
          refine ⟨s, ?_, ?_⟩
          · have : start + 1 + i = start + (i + 1) := by omega
            rwa [this] at hs
          · rw [← h]
            simpa using hps

theorem bp_err (d : DataLoader) (k : Nat) (start : Nat) (ep : Str) (rest : List Str)
    (h : d.trainPrompt.length < k) :
    buildPrompts choice d k start (ep :: rest) = .error .valueError := by
  simp [buildPrompts, icp_err choice d k start h]

theorem bp_zero (d : DataLoader) :
    ∀ eps start, buildPrompts choice d 0 start eps = .ok eps := by
  intro eps
  induction eps with
  | nil => intro start; rfl
  | cons ep rest ih =>
    intro start
    have h0 : incontext_prompt choice d 0 start = .ok emptyStr := by
      simp [incontext_prompt]
    simp [buildPrompts, h0, ih (start + 1), emptyStr]

theorem bpi_length (d : DataLoader) (k : Nat) :
    ∀ eps start ps, buildPromptsIter choice d k start eps = .ok ps → ps.length = eps.length := by
  intro eps
  induction eps with
  | nil =>
    intro start ps h
    simp only [buildPromptsIter, Except.ok.injEq] at h
    rw [← h]
    rfl
  | cons ep rest ih =>
    intro start ps h
    simp only [buildPromptsIter] at h
    cases h1 : incontext_prompt_iterative choice d k start with
    | error e => rw [h1] at h; exact absurd h (by simp)
    | ok turns =>
      rw [h1] at h
      cases h2 : buildPromptsIter choice d k (start + 1) rest with
      | error e => rw [h2] at h; exact absurd h (by simp)
      | ok ps' =>
        rw [h2] at h
        simp only [Except.ok.injEq] at h
        rw [← h]
        simp [ih (start + 1) ps' h2]

theorem bpi_get (d : DataLoader) (k : Nat) :
    ∀ eps start ps i ep, buildPromptsIter choice d k start eps = .ok ps →
      eps[i]? = some ep →
      ∃ u, incontext_prompt_iterative choice d k (start + i) = .ok u ∧
        ps[i]? = some (u ++ [⟨userStr, ep⟩]) := by
  intro eps
  induction eps with
  | nil => intro start ps i ep h hep; simp at hep
  | cons ep0 rest ih =>
    intro start ps i ep h hep
    simp only [buildPromptsIter] at h
    cases h1 : incontext_prompt_iterative choice d k start with
    | error e => rw [h1] at h; exact absurd h (by simp)
    | ok turns =>
      rw [h1] at h
      cases h2 : buildPromptsIter choice d k (start + 1) rest with
      | error e => rw [h2] at h; exact absurd h (by simp)
      | ok ps' =>
        rw [h2] at h
        simp only [Except.ok.injEq] at h
        cases i with
        | zero =>
          simp only [List.getElem?_cons_zero, Option.some.injEq] at hep
          refine ⟨turns, by simpa using h1, ?_⟩
          rw [← h, hep]
          simp
        | succ i =>
          simp only [List.getElem?_cons_succ] at hep
          obtain ⟨u, hu, hps⟩ := ih (start + 1) ps' i ep h2 hep
          refine ⟨u, ?_, ?_⟩
          · have : start + 1 + i = start + (i + 1) := by omega
            rwa [this] at hu
          · rw [← h]
            simpa using hps

theorem bpi_err (d : DataLoader) (k : Nat) (start : Nat) (ep : Str) (rest : List Str)
    (h : d.trainPrompt.length < k) :
    buildPromptsIter choice d k start (ep :: rest) = .error .valueError := by
  simp [buildPromptsIter, icpi_err choice d k start h]

theorem icp_congr (d1 d2 : DataLoader) (k seed : Nat)
    (htrain : d1.trainPrompt = d2.trainPrompt) (hpfx : d1.promptPrefix = d2.promptPrefix) :
    incontext_prompt choice d1 k seed = incontext_prompt choice d2 k seed := by
  simp only [incontext_prompt, htrain, hpfx]

theorem bp_congr (d1 d2 : DataLoader) (k : Nat)
    (htrain : d1.trainPrompt = d2.trainPrompt) (hpfx : d1.promptPrefix = d2.promptPrefix) :
    ∀ eps start, buildPrompts choice d1 k start eps = buildPrompts choice d2 k start eps := by
  intro eps
  induction eps with
  | nil => intro start; rfl
  | cons ep rest ih =>
    intro start
    simp only [buildPrompts, icp_congr choice d1 d2 k start htrain hpfx, ih (start + 1)]

end PipelineLemmas

/-!
Further helpers used by the claim theorems.
-/

theorem pySplitF_two_of_occurs (sep : Str) (hsep : sep ≠ []) :
    ∀ fuel l, l.length < fuel → occursIn sep l → 2 ≤ (pySplitF sep fuel l).length := by
  intro fuel
  induction fuel with
  | zero => intro l h ho; omega
  | succ fuel ih =>
    intro l h ho
    cases l with
    | nil =>
      rw [occursIn_iff] at ho
      obtain ⟨a, c, hac⟩ := ho
      rcases List.append_eq_nil.mp hac.symm with ⟨h1, -⟩
      exact absurd (List.append_eq_nil.mp h1).2 hsep
    | cons c rest =>
      simp only [pySplitF]
      split
      · have hne := pySplitF_ne_nil sep fuel ((c :: rest).drop sep.length)
        cases hps : pySplitF sep fuel ((c :: rest).drop sep.length) with
        | nil => exact absurd hps hne
        | cons p ps => simp
      · rename_i hcond
        have hnp : ¬ sep.isPrefixOf (c :: rest) = true := fun hp => hcond ⟨hsep, hp⟩
        have ho' : occursIn sep rest := by
          rw [occursIn_iff] at ho ⊢
          obtain ⟨a, b, hab⟩ := ho
          cases a with
          | nil =>
            exact absurd ((isPrefixOf_eq_true_iff sep (c :: rest)).mpr
              ⟨b, by simpa using hab⟩) hnp
          | cons e es =>
            exact ⟨es, b, by simpa using congrArg List.tail hab⟩
        have hlen : rest.length < fuel := by simp only [List.length_cons] at h; omega
        have h2 := ih rest hlen ho'
        have hne := pySplitF_ne_nil sep fuel rest
        cases hps : pySplitF sep fuel rest with
        | nil => exact absurd hps hne
        | cons p ps =>
          rw [hps] at h2
          simp only [List.length_cons] at h2 ⊢
          omega

theorem pySplit_two_of_occurs (sep l : Str) (hsep : sep ≠ []) (h : occursIn sep l) :
    2 ≤ (pySplit sep l).length :=
  pySplitF_two_of_occurs sep hsep (l.length + 1) l (by omega) h

theorem pairTurns_append (command sep : Str) :
    ∀ l1 ex l2, pairTurns command sep (l1 ++ ex :: l2) =
      pairTurns command sep l1 ++
        ⟨userStr, command ++ (pySplit sep ex).headD emptyStr⟩ ::
        ⟨assistantStr, (pySplit sep ex).getD 1 emptyStr⟩ :: pairTurns command sep l2 := by
  intro l1
  induction l1 with
  | nil => intro ex l2; rfl
  | cons e l1 ih =>
    intro ex l2
    simp only [List.cons_append, pairTurns, List.append_eq]
    rw [ih ex l2]

section MoreLoading

variable (choice : Nat → Nat → Nat → List Nat)

theorem bpi_zero (d : DataLoader) :
    ∀ eps start, buildPromptsIter choice d 0 start eps =
      .ok (eps.map fun q => [⟨userStr, q⟩]) := by
  intro eps
  induction eps with
  | nil => intro start; rfl
  | cons ep rest ih =>
    intro start
    have h0 : incontext_prompt_iterative choice d 0 start = .ok [] := by
      simp [incontext_prompt_iterative]
    simp [buildPromptsIter, h0, ih (start + 1)]

end MoreLoading

/-!
The claims.
-/

/-- C6: with `k = 0` in-context examples, `incontext_prompt` returns the
empty string, so the prompt at every position is exactly the rendered
evaluation query of the corresponding evaluation record — no header,
nothing prepended; for the rotten-tomatoes adapter the query column is the
pointwise rendering `rt_eval_prompt` of the evaluation pool. -/
theorem claim_C6 (choice : Nat → Nat → Nat → List Nat) (pl : PromptLoader) (d : DataLoader)
    (seed : Nat) (train test : List RTExample) :
    load_prompt choice pl 0 = .ok pl.eval_set.evalPrompt ∧
    incontext_prompt choice d 0 seed = .ok emptyStr ∧
    (RottenTomatoesDataLoader train test).evalPrompt = test.map rt_eval_prompt := by
  refine ⟨?_, ?_, rfl⟩
  · exact bp_zero choice pl.incontext_set pl.eval_set.evalPrompt 0
  · simp [incontext_prompt]

/-- C1: the prompt builder is deterministic — its output is a function of the
loaded pool data and `num_examples` alone, so any two loaders holding equal
pool columns produce equal prompt lists (in particular two calls on the same
`PromptLoader` agree), and the sampler is invoked with the same
`(pool size, k, seed)` triple, hence selects the same index sequence. -/
theorem claim_C1 (choice : Nat → Nat → Nat → List Nat) (d1 d2 e1 e2 : DataLoader)
    (k seed : Nat)
    (htrain : d1.trainPrompt = d2.trainPrompt)
    (hpfx : d1.promptPrefix = d2.promptPrefix)
    (heval : e1.evalPrompt = e2.evalPrompt) :
    load_prompt choice ⟨d1, e1⟩ k = load_prompt choice ⟨d2, e2⟩ k ∧
    choiceE choice d1.trainPrompt.length k seed =
      choiceE choice d2.trainPrompt.length k seed := by
  constructor
  · show buildPrompts choice d1 k 0 e1.evalPrompt = buildPrompts choice d2 k 0 e2.evalPrompt
    rw [heval]
    exact bp_congr choice d1 d2 k htrain hpfx e2.evalPrompt 0
  · rw [htrain]

theorem claim_C1_witness :
    load_prompt npChoice ⟨dEx, dEx⟩ 1 = load_prompt npChoice ⟨dEx, dEx⟩ 1 ∧
    choiceE npChoice dEx.trainPrompt.length 1 0 =
      choiceE npChoice dEx.trainPrompt.length 1 0 :=
  claim_C1 npChoice dEx dEx dEx dEx 1 0 rfl rfl rfl

/-- C7 counterexample: with an empty evaluation pool, a request for more
in-context examples (k = 1) than the training pool holds (n = 0) does not
fail at all — the comprehension never iterates, so `load_prompt` returns the
empty list instead of raising the promised `ValueError`. -/
theorem claim_C7_cex :
    load_prompt npChoice ⟨RottenTomatoesDataLoader [] [], RottenTomatoesDataLoader [] []⟩ 1
      = .ok [] ∧
    (RottenTomatoesDataLoader ([] : List RTExample) []).trainPrompt.length < 1 :=
  ⟨rfl, by decide⟩

/-- C7 (amended): when the requested in-context example count exceeds the
training-pool size and the evaluation pool is non-empty, both prompt
builders fail with the sampler's `ValueError`; with an empty evaluation pool
they return the empty list without error.  In no case is a non-empty,
partially assembled prompt list produced. -/
theorem claim_C7 (choice : Nat → Nat → Nat → List Nat) (pl : PromptLoader) (k : Nat)
    (hk : pl.incontext_set.trainPrompt.length < k) :
    (load_prompt choice pl k = .error .valueError ∨
      (pl.eval_set.evalPrompt = [] ∧ load_prompt choice pl k = .ok [])) ∧
    (load_prompt_iterative choice pl k = .error .valueError ∨
      (pl.eval_set.evalPrompt = [] ∧ load_prompt_iterative choice pl k = .ok [])) := by
  constructor
  · cases heps : pl.eval_set.evalPrompt with
    | nil =>
      right
      refine ⟨rfl, ?_⟩
      show buildPrompts choice pl.incontext_set k 0 pl.eval_set.evalPrompt = .ok []
      rw [heps]
      rfl
    | cons ep rest =>
      left
      show buildPrompts choice pl.incontext_set k 0 pl.eval_set.evalPrompt = .error .valueError
      rw [heps]
      exact bp_err choice pl.incontext_set k 0 ep rest hk
  · cases heps : pl.eval_set.evalPrompt with
    | nil =>
      right
      refine ⟨rfl, ?_⟩
      show buildPromptsIter choice pl.incontext_set k 0 pl.eval_set.evalPrompt = .ok []
      rw [heps]
      rfl
    | cons ep rest =>
      left
      show buildPromptsIter choice pl.incontext_set k 0 pl.eval_set.evalPrompt
        = .error .valueError
      rw [heps]
      exact bpi_err choice pl.incontext_set k 0 ep rest hk

theorem claim_C7_witness :
    (load_prompt npChoice plEx 2 = .error .valueError ∨
      (plEx.eval_set.evalPrompt = [] ∧ load_prompt npChoice plEx 2 = .ok [])) ∧
    (load_prompt_iterative npChoice plEx 2 = .error .valueError ∨
      (plEx.eval_set.evalPrompt = [] ∧ load_prompt_iterative npChoice plEx 2 = .ok [])) :=
  claim_C7 npChoice plEx 2 (by decide)

/-- C8 counterexample: constructing a `PromptLoader` with the unsupported
evaluation dataset name "sst2" (and a supported in-context name) raises no
error at all: `__init__` has no `else` branch, completes normally, and
leaves `eval_set` unbound — the failure is deferred to first use instead of
failing fast with an error naming the key. -/
theorem claim_C8_cex :
    promptLoaderInit mkStub rottenName sst2Name = .ok ⟨some (mkStub rottenName), none⟩ ∧
    sst2Name ≠ gigawordName ∧ sst2Name ≠ dailymailName ∧ sst2Name ≠ rottenName ∧
    sst2Name ≠ wikicatName ∧ sst2Name ≠ tweetqaName :=
  ⟨rfl, by decide, by decide, by decide, by decide, by decide⟩

/-- C8 (amended): with an unsupported evaluation dataset name,
`PromptLoader.__init__` completes construction with `eval_set` unbound when
the in-context name differs (failure deferred to first use), and raises an
`AttributeError` — which does not name the offending key — when the two
names coincide; `load_data`, whose lookup table would name the unsupported
key in its `KeyError`, in fact raises a `NameError` for every input because
the table refers to the undefined `_load_gigaword`. -/
theorem claim_C8 (mk : String → DataLoader) (ic ev nm : String)
    (h1 : ev ≠ gigawordName) (h2 : ev ≠ dailymailName) (h3 : ev ≠ rottenName)
    (hic : ic ≠ ev) :
    promptLoaderInit mk ic ev = .ok ⟨icOptFor mk ic, none⟩ ∧
    promptLoaderInit mk ev ev = .error .attributeError ∧
    load_data nm = .error (.nameError loadGigawordMissing) := by
  have hev : evalOptFor mk ev = none := by
    simp [evalOptFor, if_neg h1, if_neg h2, if_neg h3]
  refine ⟨?_, ?_, rfl⟩
  · simp [promptLoaderInit, if_neg hic, hev]
  · simp [promptLoaderInit, hev]

theorem claim_C8_witness :
    promptLoaderInit mkStub rottenName sst2Name = .ok ⟨icOptFor mkStub rottenName, none⟩ ∧
    promptLoaderInit mkStub sst2Name sst2Name = .error .attributeError ∧
    load_data sst2Name = .error (.nameError loadGigawordMissing) :=
  claim_C8 mkStub rottenName sst2Name sst2Name (by decide) (by decide) (by decide) (by decide)

/-- C9 counterexample: `content_map` takes no copy — after the call the
argument record itself holds the mapped value, so the transform mutates its
input in place (the post-state of the argument differs from the original
record). -/
theorem claim_C9_cex :
    content_map c9recB sentimentKey c9map =
      .ok ([(sentimentKey, Val.s negStr)], [(sentimentKey, Val.s negStr)]) ∧
    [(sentimentKey, Val.s negStr)] ≠ c9recB :=
  ⟨rfl, by decide⟩

/-- C9 (amended): `change_key` copies its argument and returns a new record,
leaving the argument unchanged; `content_map` takes no copy — it writes the
mapped value into its argument and returns that same mutated record. -/
theorem claim_C9 (ex1 r1 post1 ex2 r2 post2 : Rec) (old_key new_key target_key : String)
    (mapping : List (Val × Val))
    (hA : change_key ex1 old_key new_key = .ok (r1, post1))
    (hB : content_map ex2 target_key mapping = .ok (r2, post2)) :
    post1 = ex1 ∧ post2 = r2 := by
  constructor
  · unfold change_key at hA
    split at hA
    · exact absurd hA (by simp)
    · simp only [Except.ok.injEq, Prod.mk.injEq] at hA
      exact hA.2.symm
  · unfold content_map at hB
    split at hB
    · exact absurd hB (by simp)
    · split at hB
      · exact absurd hB (by simp)
      · simp only [Except.ok.injEq, Prod.mk.injEq] at hB
        rw [← hB.1, ← hB.2]

theorem claim_C9_witness :
    c9recA = c9recA ∧
    ([(sentimentKey, Val.s negStr)] : Rec) = [(sentimentKey, Val.s negStr)] :=
  claim_C9 c9recA [(textKey, Val.s aStr), (sentimentKey, Val.i 1)] c9recA
    c9recB [(sentimentKey, Val.s negStr)] [(sentimentKey, Val.s negStr)]
    labelKey sentimentKey sentimentKey c9map rfl rfl

/-- C3: for `k ≠ 0`, the flat prompt at evaluation position `i` is exactly the
dataset's header, the sampled fragments (seeded with `i`) joined by a single
newline, a trailing newline, and the evaluation query of record `i`; and on
the concrete scenario (training pool `[{text: "A", label: 1}]`, evaluation
pool `[{text: "B", label: 0}]`, k = 1) the produced prompt is the header,
`"review: A\nsentiment: positive"`, a newline, the instruction text (which
ends in a newline), and `"B"`, with reference list `["negative"]`. -/
theorem claim_C3 (choice : Nat → Nat → Nat → List Nat) (pl : PromptLoader) (k i : Nat)
    (ps : List Str) (ep : Str)
    (hk : k ≠ 0)
    (hps : load_prompt choice pl k = .ok ps)
    (hep : pl.eval_set.evalPrompt[i]? = some ep) :
    ps[i]? = some (pl.incontext_set.promptPrefix ++
      pyJoin nlStr (fragsOf choice pl.incontext_set k i) ++ nlStr ++ ep) ∧
    load_prompt npChoice plEx 1 = .ok psEx ∧
    load_testdata plEx = [negStr] := by
  refine ⟨?_, rfl, rfl⟩
  obtain ⟨s, hs, hgot⟩ :=
    bp_get choice pl.incontext_set k pl.eval_set.evalPrompt 0 ps i ep hps hep
  have hss : s = icString choice pl.incontext_set k (0 + i) :=
    icp_inv choice pl.incontext_set k (0 + i) s hs
  rw [hss, icString, if_neg hk] at hgot
  rw [hgot]
  simp [List.append_assoc]

theorem claim_C3_witness :
    psEx[0]? =
      some (plEx.incontext_set.promptPrefix ++
        pyJoin nlStr (fragsOf npChoice plEx.incontext_set 1 0) ++ nlStr ++ evalQB) ∧
    load_prompt npChoice plEx 1 = .ok psEx ∧
    load_testdata plEx = [negStr] :=
  claim_C3 npChoice plEx 1 0 psEx evalQB (by decide) rfl rfl

/-- C4: the turn-structured output at evaluation position `i` is, per sampled
training example (seeded with `i`), exactly one user turn holding the
adapter's per-turn instruction text followed by the fragment's input part
(`parts[0]`) and one assistant turn holding the target part (`parts[1]`) —
this is the shape `icTurns` denotes — followed by one trailing user turn
holding the evaluation query; for `k = 0` every turn list consists of the
trailing user turn alone. -/
theorem claim_C4 (choice : Nat → Nat → Nat → List Nat) (pl : PromptLoader) (k i : Nat)
    (ts : List (List Turn)) (ep : Str)
    (hts : load_prompt_iterative choice pl k = .ok ts)
    (hep : pl.eval_set.evalPrompt[i]? = some ep) :
    ts[i]? = some (icTurns choice pl.incontext_set k i ++ [⟨userStr, ep⟩]) ∧
    load_prompt_iterative choice pl 0 =
      .ok (pl.eval_set.evalPrompt.map fun q => [⟨userStr, q⟩]) := by
  constructor
  · obtain ⟨u, hu, hgot⟩ :=
      bpi_get choice pl.incontext_set k pl.eval_set.evalPrompt 0 ts i ep hts hep
    rw [icpi_inv choice pl.incontext_set k (0 + i) u hu] at hgot
    simpa using hgot
  · exact bpi_zero choice pl.incontext_set pl.eval_set.evalPrompt 0

theorem claim_C4_witness :
    [turnsEx][0]? = some (icTurns npChoice plEx.incontext_set 1 0 ++ [⟨userStr, evalQB⟩]) ∧
    load_prompt_iterative npChoice plEx 0 =
      .ok (plEx.eval_set.evalPrompt.map fun q => [⟨userStr, q⟩]) :=
  claim_C4 npChoice plEx 1 0 [turnsEx] evalQB rfl rfl

/-- C5: references and prompts are positionally aligned in evaluation-pool
order: for an evaluation pool `test` of the rotten-tomatoes adapter, the
`i`-th reference is the ground-truth sentiment of record `test[i]`, both
output lists have one entry per evaluation record, the `i`-th flat prompt
ends in the rendered query of that same record, and the `i`-th turn list
ends in a user turn holding that same query. -/
theorem claim_C5 (choice : Nat → Nat → Nat → List Nat) (d : DataLoader)
    (train test : List RTExample) (k i : Nat)
    (ps : List Str) (ts : List (List Turn)) (r : RTExample)
    (hps : load_prompt choice ⟨d, RottenTomatoesDataLoader train test⟩ k = .ok ps)
    (hts : load_prompt_iterative choice ⟨d, RottenTomatoesDataLoader train test⟩ k = .ok ts)
    (hr : test[i]? = some r) :
    (load_testdata ⟨d, RottenTomatoesDataLoader train test⟩)[i]? =
      some (label_to_sentiment r) ∧
    ps.length = test.length ∧
    ts.length = test.length ∧
    ps[i]? = some (icString choice d k i ++ rt_eval_prompt r) ∧
    ts[i]? = some (icTurns choice d k i ++ [⟨userStr, rt_eval_prompt r⟩]) := by
  have hep : (RottenTomatoesDataLoader train test).evalPrompt[i]? =
      some (rt_eval_prompt r) := by
    show (test.map rt_eval_prompt)[i]? = some (rt_eval_prompt r)
    rw [List.getElem?_map, hr]
    rfl
  refine ⟨?_, ?_, ?_, ?_, ?_⟩
  · show (test.map label_to_sentiment)[i]? = some (label_to_sentiment r)
    rw [List.getElem?_map, hr]
    rfl
  · have := bp_length choice d k (RottenTomatoesDataLoader train test).evalPrompt 0 ps hps
    simpa [RottenTomatoesDataLoader] using this
  · have := bpi_length choice d k (RottenTomatoesDataLoader train test).evalPrompt 0 ts hts
    simpa [RottenTomatoesDataLoader] using this
  · obtain ⟨s, hs, hgot⟩ :=
      bp_get choice d k (RottenTomatoesDataLoader train test).evalPrompt 0 ps i
        (rt_eval_prompt r) hps hep
    rw [icp_inv choice d k (0 + i) s hs] at hgot
    simpa using hgot
  · obtain ⟨u, hu, hgot⟩ :=
      bpi_get choice d k (RottenTomatoesDataLoader train test).evalPrompt 0 ts i
        (rt_eval_prompt r) hts hep
    rw [icpi_inv choice d k (0 + i) u hu] at hgot
    simpa using hgot

theorem claim_C5_witness :
    (load_testdata ⟨dEx, RottenTomatoesDataLoader [exA] [exB]⟩)[0]? =
      some (label_to_sentiment exB) ∧
    psEx.length = [exB].length ∧
    [turnsEx].length = [exB].length ∧
    psEx[0]? = some (icString npChoice dEx 1 0 ++ rt_eval_prompt exB) ∧
    [turnsEx][0]? = some (icTurns npChoice dEx 1 0 ++ [⟨userStr, rt_eval_prompt exB⟩]) :=
  claim_C5 npChoice dEx [exA] [exB] 1 0 psEx [turnsEx] exB rfl rfl rfl

/-- C10: splitting at the separator and indexing `parts[0]` and `parts[1]` is
total for every fragment the rotten-tomatoes adapter's own `_prompt`
produces (the fragment always contains the separator, by construction); and
for a fragment with a second separator occurrence (a record whose own text
contains the separator token), only the text between the first and second
occurrence becomes the assistant turn's content — the emitted turns are
exactly the user turn `command ++ parts[0]` and the assistant turn
`parts[1]`, while everything after the second occurrence
(`parts[2]` joined onwards) is absent from them. -/
theorem claim_C10 (r : RTExample) (ex p0 p1 p2 : Str) (rest : List Str)
    (hx : pySplit rtSep ex = p0 :: p1 :: p2 :: rest) :
    exceptOk (turnsOfExample rtCommand rtSep (rt_prompt r)) = true ∧
    turnsOfExample rtCommand rtSep ex =
      .ok [⟨userStr, rtCommand ++ p0⟩, ⟨assistantStr, p1⟩] ∧
    ex = p0 ++ rtSep ++ p1 ++ rtSep ++ pyJoin rtSep (p2 :: rest) := by
  have hsep : rtSep ≠ [] := by decide
  refine ⟨?_, ?_, ?_⟩
  · have hocc : occursIn rtSep (rt_prompt r) := by
      rw [occursIn_iff]
      exact ⟨reviewLit ++ r.text, label_to_sentiment r, by simp [rt_prompt]⟩
    have h2 := pySplit_two_of_occurs rtSep (rt_prompt r) hsep hocc
    rw [turnsOfExample_ok rtCommand rtSep (rt_prompt r) h2]
    rfl
  · rw [turnsOfExample_ok rtCommand rtSep ex (by rw [hx]; simp)]
    rw [hx]
    rfl
  · have := pyJoin_pySplit rtSep ex hsep
    rw [hx] at this
    rw [← this]
    simp [pyJoin, List.append_assoc]

theorem claim_C10_witness :
    exceptOk (turnsOfExample rtCommand rtSep (rt_prompt exA)) = true ∧
    turnsOfExample rtCommand rtSep advFrag =
      .ok [⟨userStr, rtCommand ++ reviewXStr⟩, ⟨assistantStr, yStr⟩] ∧
    advFrag = reviewXStr ++ rtSep ++ yStr ++ rtSep ++ pyJoin rtSep [posStr] :=
  claim_C10 exA advFrag reviewXStr yStr posStr [] rfl

set_option maxRecDepth 100000 in
/-- C2 counterexample: with the training record `{text: "x\nsentiment: y",
label: 1}` the sampled fragment appears verbatim in the flat prompt, but
joining the `content` fields of the corresponding turn list with the
dataset's separator does not reconstruct a string containing it: the text
after the fragment's second separator occurrence (`"positive"`) is lost in
the turn representation, so the claimed cross-representation equivalence
fails as stated. -/
theorem claim_C2_cex :
    load_prompt npChoice plAdv 1 = .ok [rtHeader ++ advFrag ++ nlStr ++ evalQB] ∧
    load_prompt_iterative npChoice plAdv 1 =
      .ok [[⟨userStr, rtCommand ++ reviewXStr⟩, ⟨assistantStr, yStr⟩, ⟨userStr, evalQB⟩]] ∧
    occursIn advFrag (rtHeader ++ advFrag ++ nlStr ++ evalQB) ∧
    ¬ occursIn advFrag
      (pyJoin rtSep
        (([⟨userStr, rtCommand ++ reviewXStr⟩, ⟨assistantStr, yStr⟩,
           ⟨userStr, evalQB⟩] : List Turn).map Turn.content)) :=
  ⟨rfl, rfl, by decide, by decide⟩

/-- C2 (amended): at evaluation position `i`, the flat builder and the turn
builder use the same sampled index sequence — both call the sampler with the
pool size, `k`, and seed `i` — so the flat prompt and the turn list at `i`
are both renderings over `fragsOf choice _ k i`; and provided the sampled
fragment at index `j` splits into exactly two parts at the separator (one
separator occurrence), that fragment both appears in the flat prompt and is
reconstructed inside the `content` fields of the turn list at `i` joined
with the dataset's separator. -/
theorem claim_C2 (choice : Nat → Nat → Nat → List Nat) (pl : PromptLoader) (k i j : Nat)
    (ps : List Str) (ts : List (List Turn)) (ep : Str)
    (hk : k ≠ 0)
    (hsep : pl.incontext_set.sep ≠ [])
    (hps : load_prompt choice pl k = .ok ps)
    (hts : load_prompt_iterative choice pl k = .ok ts)
    (hep : pl.eval_set.evalPrompt[i]? = some ep)
    (hj : j ∈ choice pl.incontext_set.trainPrompt.length k i)
    (hsplit : (pySplit pl.incontext_set.sep
        (pl.incontext_set.trainPrompt.getD j emptyStr)).length = 2) :
    ps[i]? = some (icString choice pl.incontext_set k i ++ ep) ∧
    ts[i]? = some (icTurns choice pl.incontext_set k i ++ [⟨userStr, ep⟩]) ∧
    occursIn (pl.incontext_set.trainPrompt.getD j emptyStr)
      (icString choice pl.incontext_set k i ++ ep) ∧
    occursIn (pl.incontext_set.trainPrompt.getD j emptyStr)
      (pyJoin pl.incontext_set.sep
        ((icTurns choice pl.incontext_set k i ++ ([⟨userStr, ep⟩] : List Turn)).map
          Turn.content)) := by
  set d := pl.incontext_set with hd
  set frag := d.trainPrompt.getD j emptyStr with hfragdef
  obtain ⟨p0, p1, hps2⟩ : ∃ p0 p1, pySplit d.sep frag = [p0, p1] := by
    cases h0 : pySplit d.sep frag with
    | nil => rw [h0] at hsplit; simp at hsplit
    | cons a as =>
      cases as with
      | nil => rw [h0] at hsplit; simp at hsplit
      | cons b bs =>
        cases bs with
        | nil => exact ⟨a, b, rfl⟩
        | cons c cs => rw [h0] at hsplit; simp at hsplit
  have hfrageq : frag = p0 ++ d.sep ++ p1 := by
    have hjs := pyJoin_pySplit d.sep frag hsep
    rw [hps2] at hjs
    simpa [pyJoin] using hjs.symm
  have hmem : frag ∈ fragsOf choice d k i := List.mem_map_of_mem _ hj
  refine ⟨?_, ?_, ?_, ?_⟩
  · obtain ⟨s, hs, hgot⟩ := bp_get choice d k pl.eval_set.evalPrompt 0 ps i ep hps hep
    rw [icp_inv choice d k (0 + i) s hs] at hgot
    simpa using hgot
  · obtain ⟨u, hu, hgot⟩ := bpi_get choice d k pl.eval_set.evalPrompt 0 ts i ep hts hep
    rw [icpi_inv choice d k (0 + i) u hu] at hgot
    simpa using hgot
  · have h1 : occursIn frag (pyJoin nlStr (fragsOf choice d k i)) :=
      occursIn_mem_pyJoin nlStr frag _ hmem
    rw [icString, if_neg hk]
    have h2 := occursIn_appendL frag d.promptPrefix _ h1
    have h3 := occursIn_appendR frag _ nlStr h2
    exact occursIn_appendR frag _ ep h3
  · obtain ⟨l1, l2, hsplitlist⟩ := List.append_of_mem hmem
    have hcontents :
        (icTurns choice d k i ++ ([⟨userStr, ep⟩] : List Turn)).map Turn.content =
          (pairTurns d.command d.sep l1).map Turn.content ++
            (d.command ++ p0) :: p1 ::
              ((pairTurns d.command d.sep l2).map Turn.content ++ [ep]) := by
      rw [icTurns, if_neg hk, hsplitlist, pairTurns_append, hps2]
      simp
    rw [hcontents]
    have key := pyJoin_pair_occurs d.sep (d.command ++ p0) p1
      ((pairTurns d.command d.sep l1).map Turn.content)
      ((pairTurns d.command d.sep l2).map Turn.content ++ [ep])
    have key2 : occursIn (d.command ++ (p0 ++ d.sep ++ p1))
        (pyJoin d.sep
          ((pairTurns d.command d.sep l1).map Turn.content ++
            (d.command ++ p0) :: p1 ::
              ((pairTurns d.command d.sep l2).map Turn.content ++ [ep]))) := by
      simpa [List.append_assoc] using key
    have key3 := occursIn_of_append_left d.command (p0 ++ d.sep ++ p1) _ key2
    rw [hfrageq]
    exact key3

theorem claim_C2_witness :
    psEx[0]? = some (icString npChoice plEx.incontext_set 1 0 ++ evalQB) ∧
    [turnsEx][0]? = some (icTurns npChoice plEx.incontext_set 1 0 ++ [⟨userStr, evalQB⟩]) ∧
    occursIn (plEx.incontext_set.trainPrompt.getD 0 emptyStr)
      (icString npChoice plEx.incontext_set 1 0 ++ evalQB) ∧
    occursIn (plEx.incontext_set.trainPrompt.getD 0 emptyStr)
      (pyJoin plEx.incontext_set.sep
        ((icTurns npChoice plEx.incontext_set 1 0 ++ ([⟨userStr, evalQB⟩] : List Turn)).map
          Turn.content)) :=
  claim_C2 npChoice plEx 1 0 0 psEx [turnsEx] evalQB
    (by decide) (by decide) rfl rfl rfl (by decide) (by decide)
